import Mathlib

/-!
# aws-securitygroup-manager: the rule-ownership codec and reconciler

A shallow embedding of `pkg/awsclient/aws.go`.

* Go strings are Lean strings (sequences of Unicode code points), so only
  valid UTF-8 Go strings are covered.
* A Go pointer that may be nil is an `Option`; dereferencing `none` is the
  run-time panic `Panic.nilDereference`. Slices hold non-nil pointers.
* A Go `error` is an `Option String` (`none` is nil); a function that may panic
  returns `Except Panic`.
* `fmt.Sscanf` is embedded as `doScanf`, following `fmt/scan.go` for the
  directives `descriptionFormat` uses. The scanner's width limit `hugeWid`
  (2^30 runes for one scan) is not modelled: a Description column holds at
  most 255 characters.
* The provider behind `*ec2.EC2` is the fake `EC2`: a rule set, the failures
  it answers with, and the record of the requests it received.
-/

namespace AwsClient

deriving instance DecidableEq for Except

/-! ## fmt/scan.go -/

/-- Table `space` of fmt/scan.go: the closed ranges of white-space code points. -/
def space : List (Nat × Nat) :=
  [(0x0009, 0x000d), (0x0020, 0x0020), (0x0085, 0x0085), (0x00a0, 0x00a0),
   (0x1680, 0x1680), (0x2000, 0x200a), (0x2028, 0x2029), (0x202f, 0x202f),
   (0x205f, 0x205f), (0x3000, 0x3000)]

/-- Loop of `isSpace` over the range table. -/
def isSpaceIn : List (Nat × Nat) → Nat → Bool
  | [], _ => false
  | rng :: rest, rx =>
    if rx < rng.1 then false
    else if rx ≤ rng.2 then true
    else isSpaceIn rest rx

/-- Function `isSpace` of fmt/scan.go. -/
def isSpace (r : Char) : Bool :=
  if r.toNat ≥ 2 ^ 16 then false else isSpaceIn space r.toNat

/-- Function `notSpace` of fmt/scan.go. -/
def notSpace (r : Char) : Bool := !isSpace r

/-- Errors with which a scan ends (the panics that `errorHandler` turns into
the returned `err`). -/
inductive ScanError
  | inputDoesNotMatchFormat
  | expectedSpace
  | newlineInInput
  | unexpectedNewline
  | unexpectedEOF
  | EOF
  | tooFewOperands
  | tooManyOperands
  | missingVerb
  | unsupported
  deriving DecidableEq, Repr

/-- Method `peek`: is the next rune of the input one of `ok`? -/
def peek (ok : List Char) : List Char → Bool
  | [] => false
  | r :: _ => ok.contains r

/-- Method `SkipSpace` with `nlIsSpace = false` (as `Sscanf` sets it): skips
white space, a newline is an error. The argument is the unread input. -/
def SkipSpace : List Char → Except ScanError (List Char)
  | [] => .ok []
  | r :: rest =>
    if r = '\r' && peek ['\n'] rest then SkipSpace rest
    else if r = '\n' then .error .unexpectedNewline
    else if !isSpace r then .ok (r :: rest)
    else SkipSpace rest

/-- Method `notEOF`: there must be data left to read. -/
def notEOF : List Char → Except ScanError Unit
  | [] => .error .EOF
  | _ :: _ => .ok ()

/-- Method `token`: after optionally skipping space, reads runes while `f`
holds; returns the token and the unread input. -/
def token (skipSpace : Bool) (f : Char → Bool) (input : List Char) :
    Except ScanError (List Char × List Char) :=
  match (if skipSpace then SkipSpace input else .ok input) with
  | .error e => .error e
  | .ok input => .ok (input.takeWhile f, input.dropWhile f)

/-- Method `convertString` for the verbs `%s` and `%v`: the next
space-delimited word. -/
def convertString (input : List Char) : Except ScanError (List Char × List Char) :=
  match SkipSpace input with
  | .error e => .error e
  | .ok input =>
    match notEOF input with
    | .error e => .error e
    | .ok _ => token true notSpace input

/-- The loop `for isSpace(inputc) && inputc != '\n'` of `advance`, ending with
`UnreadRune` unless the input is exhausted. -/
def skipBlanks : List Char → List Char
  | [] => []
  | c :: rest => if isSpace c && c != '\n' then skipBlanks rest else c :: rest

/-- The `trailingSpace` branch of `advance` with `newlines == 0`: a run of
spaces in the format matches one or more spaces of the input, or its end. -/
def advanceSpace : List Char → Except ScanError (List Char)
  | [] => .ok []
  | c :: rest =>
    if !isSpace c then .error .expectedSpace
    else if c = '\n' then .error .newlineInInput
    else .ok (skipBlanks (c :: rest))

/-- Does the run of spaces in the format go on with the next format rune? -/
def runContinues : List Char → Bool
  | [] => false
  | g :: _ => isSpace g

/-- One rune `f` of the format other than a verb, as `advance` handles it;
`format` is what follows `f`. A run of spaces is matched against the input at
its last rune; a literal must equal the next rune of the input
(`mustReadRune`). -/
def advanceRune (f : Char) (format input : List Char) : Except ScanError (List Char) :=
  if isSpace f then
    if f = '\n' then .error .unsupported
    else if runContinues format then .ok input
    else advanceSpace input
  else
    match input with
    | [] => .error .unexpectedEOF
    | r :: input => if f = r then .ok input else .error .inputDoesNotMatchFormat

/-- One verb `%c` of the format, as `doScanf` handles it with operands of type
`*string`: `numArgs` is the number of operands, `vals` the values stored so
far. -/
def scanVerb (numArgs : Nat) (c : Char) (input : List Char) (vals : List (List Char)) :
    Except ScanError (List Char × List (List Char)) :=
  if c = 's' || c = 'v' then
    match SkipSpace input with
    | .error e => .error e
    | .ok input =>
      if vals.length ≥ numArgs then .error .tooFewOperands
      else
        match convertString input with
        | .error e => .error e
        | .ok (str, input) => .ok (input, vals ++ [str])
  else .error .unsupported

/-- Method `doScanf` together with `advance`, as one pass over the format.
Covered: literal runes, runs of spaces without a newline, and the verbs `%s`
and `%v`; any other directive gives `unsupported`. -/
def doScanf (numArgs : Nat) :
    List Char → List Char → List (List Char) → Except ScanError (List (List Char))
  | [], _, vals =>
    if vals.length < numArgs then .error .tooManyOperands else .ok vals
  | [f], input, vals =>
    if f = '%' then .error .missingVerb
    else
      match advanceRune f [] input with
      | .error e => .error e
      | .ok input => doScanf numArgs [] input vals
  | f :: c :: format, input, vals =>
    if f = '%' then
      match scanVerb numArgs c input vals with
      | .error e => .error e
      | .ok (input, vals) => doScanf numArgs format input vals
    else
      match advanceRune f (c :: format) input with
      | .error e => .error e
      | .ok input => doScanf numArgs (c :: format) input vals

/-- Function `fmt.Sscanf` with `numArgs` operands of type `*string`. -/
def Sscanf (str format : String) (numArgs : Nat) : Except ScanError (List (List Char)) :=
  doScanf numArgs format.data str.data []

/-! ## pkg/awsclient/aws.go -/

/-- Run-time panics of the Go code. -/
inductive Panic
  | nilDereference
  | indexOutOfRange
  deriving DecidableEq, Repr

/-- The equivalent of a firewall inbound rule entry in the AWS security group. -/
structure RuleEntry where
  NodeName : String
  OwnerID : String
  FromPort : Int
  ToPort : Int
  IP : String
  Protocol : String
  deriving DecidableEq, Repr

/-- The format of the Description column. -/
def descriptionFormat : String := "ownerid=%s ; nodename=%s"

/-- Method `GetDescription`: `fmt.Sprintf(descriptionFormat, r.OwnerID, r.NodeName)`. -/
def RuleEntry.GetDescription (r : RuleEntry) : String :=
  "ownerid=" ++ r.OwnerID ++ " ; nodename=" ++ r.NodeName

/-- Function `ParseDescription`: the owner and node name of a description, or
`none` (both pointers nil) when `Sscanf` reports an error. -/
def ParseDescription (description : Option String) :
    Except Panic (Option (String × String)) :=
  match description with
  | none => .error .nilDereference
  | some d =>
    match Sscanf d descriptionFormat 2 with
    | .ok [ownerid, nodename] => .ok (some (⟨ownerid⟩, ⟨nodename⟩))
    | _ => .ok none

/-- Function `RuleEntryFromDescription`: only OwnerID and NodeName are filled. -/
def RuleEntryFromDescription (description : Option String) :
    Except Panic (Option RuleEntry) :=
  match description with
  | none => .error .nilDereference
  | some d =>
    match Sscanf d descriptionFormat 2 with
    | .ok [ownerid, nodename] =>
      .ok (some { NodeName := ⟨nodename⟩, OwnerID := ⟨ownerid⟩, FromPort := 0, ToPort := 0,
                  IP := "", Protocol := "" })
    | _ => .ok none

/-- Letters, digits and the hyphen, the runes of the identifiers in the tests
of `aws_test.go` ("aaa", "333", "a-3"). -/
def isIdentRune (c : Char) : Bool :=
  (48 ≤ c.toNat && c.toNat ≤ 57) || (65 ≤ c.toNat && c.toNat ≤ 90) ||
    (97 ≤ c.toNat && c.toNat ≤ 122) || c.toNat == 45

/-- Type `ec2.IpRange`: one address range and its Description column. Both
fields are pointers in the SDK, nil when the provider sends no value. -/
structure IpRange where
  CidrIp : Option String
  Description : Option String
  deriving DecidableEq, Repr

/-- Type `ec2.IpPermission`, with the fields `aws.go` reads or writes: a grouped
rule, one port range and protocol with a list of address ranges. -/
structure IpPermission where
  FromPort : Option Int
  ToPort : Option Int
  IpProtocol : Option String
  IpRanges : List IpRange
  deriving DecidableEq, Repr

/-- Function `isRuleOwnedByID`: reads `rule.IpRanges[0].Description`. -/
def isRuleOwnedByID (rule : IpPermission) (ownerID : String) : Except Panic Bool :=
  match rule.IpRanges with
  | [] => .error .indexOutOfRange
  | iprange :: _ =>
    match ParseDescription iprange.Description with
    | .error p => .error p
    | .ok none => .ok false
    | .ok (some (owner, _)) => .ok (decide (owner = ownerID))

/-- Inner loop of `expandRules`: one new rule per address range of `rule`. -/
def expandRule (rule : IpPermission) : List IpRange → List IpPermission
  | [] => []
  | iprange :: rest =>
    { FromPort := rule.FromPort, ToPort := rule.ToPort, IpProtocol := rule.IpProtocol,
      IpRanges := [iprange] } :: expandRule rule rest

/-- Function `expandRules`: a new `ec2.IpPermission` for each IpRange entry. -/
def expandRules : List IpPermission → List IpPermission
  | [] => []
  | rule :: rules => expandRule rule rule.IpRanges ++ expandRules rules

/-- Loop of `filterInboundRules` over the expanded rules. -/
def filterLoop (ownerID : String) (returnOwned : Bool) :
    List IpPermission → Except Panic (List IpPermission)
  | [] => .ok []
  | rule :: rest =>
    match isRuleOwnedByID rule ownerID with
    | .error p => .error p
    | .ok ruleIsOwned =>
      match filterLoop ownerID returnOwned rest with
      | .error p => .error p
      | .ok results =>
        if (returnOwned && ruleIsOwned) || (!returnOwned && !ruleIsOwned) then
          .ok (rule :: results)
        else .ok results

/-- Function `filterInboundRules`: the rules owned by `ownerID` if `returnOwned`
is true, the others otherwise. -/
def filterInboundRules (rules : List IpPermission) (ownerID : String) (returnOwned : Bool) :
    Except Panic (List IpPermission) :=
  filterLoop ownerID returnOwned (expandRules rules)

/-- Requests received by the provider. -/
inductive Call
  | DescribeSecurityGroups
  | RevokeSecurityGroupIngress (perms : List IpPermission)
  | AuthorizeSecurityGroupIngress (perms : List IpPermission)
  deriving DecidableEq, Repr

/-- Modelled from the spec: the firewall provider client (the `*ec2.EC2` handle
of the AWS SDK, not part of this repository), for the one configured security
group. `IpPermissions` is the group's inbound rule set, the three `Err` fields
are the failures the provider answers the three requests with (none: the
request is served), and `calls` records the requests received, oldest first. -/
structure EC2 where
  IpPermissions : List IpPermission
  describeErr : Option String
  revokeErr : Option String
  authorizeErr : Option String
  calls : List Call
  deriving DecidableEq, Repr

/-- Modelled from the spec: "describe rules for object X" returns the
grouped-rule representation, or fails. -/
def EC2.DescribeSecurityGroups (c : EC2) : Except String (List IpPermission) × EC2 :=
  let c1 := { c with calls := c.calls ++ [Call.DescribeSecurityGroups] }
  match c.describeErr with
  | some e => (.error e, c1)
  | none => (.ok c.IpPermissions, c1)

/-- Modelled from the spec: "revoke permissions" removes exactly the revoked
address ranges (compared with their port range, protocol and description), or
fails and removes nothing. -/
def EC2.RevokeSecurityGroupIngress (c : EC2) (perms : List IpPermission) : Option String × EC2 :=
  let c1 := { c with calls := c.calls ++ [Call.RevokeSecurityGroupIngress perms] }
  match c.revokeErr with
  | some e => (some e, c1)
  | none =>
    (none, { c1 with IpPermissions :=
      (expandRules c.IpPermissions).filter (fun e => !(expandRules perms).contains e) })

/-- Modelled from the spec: "authorize permissions" adds exactly the submitted
rules; the provider rejects authorizing zero permissions. -/
def EC2.AuthorizeSecurityGroupIngress (c : EC2) (perms : List IpPermission) : Option String × EC2 :=
  let c1 := { c with calls := c.calls ++ [Call.AuthorizeSecurityGroupIngress perms] }
  match c.authorizeErr with
  | some e => (some e, c1)
  | none =>
    if perms.isEmpty then (some "MissingParameter", c1)
    else (none, { c1 with IpPermissions := c.IpPermissions ++ perms })

/-- A bundle of other structs to serve as a context for this connection. -/
structure AwsContext where
  ec2 : EC2
  SecurityGroupID : String
  OwnerID : String
  deriving DecidableEq, Repr

/-- Method `GetInboundRules`: all the inbound rules of the current security
group (a served describe request answers with exactly that group). -/
def AwsContext.GetInboundRules (a : AwsContext) : Except String (List IpPermission) × AwsContext :=
  match a.ec2.DescribeSecurityGroups with
  | (.error err, c) => (.error ("GetInboundRules error: " ++ err), { a with ec2 := c })
  | (.ok results, c) => (.ok results, { a with ec2 := c })

/-- Method `GetInboundRulesOwnedByID`. -/
def AwsContext.GetInboundRulesOwnedByID (a : AwsContext) :
    Except Panic (Except String (List IpPermission) × AwsContext) :=
  match a.GetInboundRules with
  | (.error err, a1) => .ok (.error ("GetInboundRulesOwnedByID error: " ++ err), a1)
  | (.ok originalSet, a1) =>
    match filterInboundRules originalSet a.OwnerID true with
    | .error p => .error p
    | .ok results => .ok (.ok results, a1)

/-- Loop of `GetOwnedEntries` over the address ranges of `permissions[0]`. -/
def ownedEntriesLoop (perm : IpPermission) : List IpRange → Except Panic (List RuleEntry)
  | [] => .ok []
  | iprange :: rest =>
    match RuleEntryFromDescription iprange.Description with
    | .error p => .error p
    | .ok none => .error .nilDereference
    | .ok (some rule) =>
      match perm.FromPort, perm.ToPort, perm.IpProtocol, iprange.CidrIp with
      | some fromPort, some toPort, some protocol, some cidrIp =>
        match ownedEntriesLoop perm rest with
        | .error p => .error p
        | .ok result =>
          .ok ({ rule with FromPort := fromPort, ToPort := toPort, Protocol := protocol,
                           IP := cidrIp } :: result)
      | _, _, _, _ => .error .nilDereference

/-- Method `GetOwnedEntries`: builds the entries from `permissions[0]`. -/
def AwsContext.GetOwnedEntries (a : AwsContext) :
    Except Panic (Except String (List RuleEntry) × AwsContext) :=
  match a.GetInboundRulesOwnedByID with
  | .error p => .error p
  | .ok (.error err, a1) => .ok (.error ("GetOwnedEntries error: " ++ err), a1)
  | .ok (.ok permissions, a1) =>
    match permissions with
    | [] => .error .indexOutOfRange
    | perm :: _ =>
      match ownedEntriesLoop perm perm.IpRanges with
      | .error p => .error p
      | .ok result => .ok (.ok result, a1)

/-- Method `SetInboundRules`: one authorize request. -/
def AwsContext.SetInboundRules (a : AwsContext) (rules : List IpPermission) :
    Option String × AwsContext :=
  match a.ec2.AuthorizeSecurityGroupIngress rules with
  | (some err, c) => (some ("Error setting inbound rules: " ++ err), { a with ec2 := c })
  | (none, c) => (none, { a with ec2 := c })

/-- Method `DeleteInboundRules`: one revoke request, none for an empty list. -/
def AwsContext.DeleteInboundRules (a : AwsContext) (rules : List IpPermission) :
    Option String × AwsContext :=
  if rules.length = 0 then (none, a)
  else
    match a.ec2.RevokeSecurityGroupIngress rules with
    | (some err, c) => (some ("Error deleting inbound rules: " ++ err), { a with ec2 := c })
    | (none, c) => (none, { a with ec2 := c })

/-- First loop of `ReplaceOwnedEntries`: the `ec2.IpPermission` built from one
entry. -/
def replacement (entry : RuleEntry) : IpPermission :=
  { FromPort := some entry.FromPort, ToPort := some entry.ToPort,
    IpProtocol := some entry.Protocol,
    IpRanges := [{ CidrIp := some entry.IP, Description := some entry.GetDescription }] }

/-- Method `ReplaceOwnedEntries`: delete all the firewall entries tagged under
the current OwnerID and then add a fresh set of rules. The value returned by
`DeleteInboundRules` is dropped, as in the source. -/
def AwsContext.ReplaceOwnedEntries (a : AwsContext) (entries : List RuleEntry) :
    Except Panic (Option String × AwsContext) :=
  let ruleList := entries.map replacement
  match a.GetInboundRules with
  | (.error err, a1) =>
    .ok (some ("ReplaceOwnedEntries error while getting old rules: " ++ err), a1)
  | (.ok oldRules, a1) =>
    let expandedRules := expandRules oldRules
    match filterInboundRules expandedRules a.OwnerID false with
    | .error p => .error p
    | .ok notMyRules =>
      let a2 := (a1.DeleteInboundRules oldRules).2
      let newRules := notMyRules ++ ruleList
      .ok (a2.SetInboundRules newRules)

/-! ## Scenarios -/

/-- A provider holding `rules` that serves every request. -/
def EC2.serving (rules : List IpPermission) : EC2 :=
  { IpPermissions := rules, describeErr := none, revokeErr := none, authorizeErr := none,
    calls := [] }

/-- The entries of `TestReplaceOwnedEntries` in aws_test.go, `ownerID` standing
for `aws.OwnerID`. -/
def validEntries (ownerID : String) : List RuleEntry :=
  [{ NodeName := "node1", OwnerID := ownerID, FromPort := 2345, ToPort := 5432,
     IP := "192.172.0.1/32", Protocol := "tcp" },
   { NodeName := "node2", OwnerID := ownerID, FromPort := 2345, ToPort := 5432,
     IP := "192.172.0.2/32", Protocol := "tcp" },
   { NodeName := "node3", OwnerID := ownerID, FromPort := 2345, ToPort := 5432,
     IP := "192.172.0.3/32", Protocol := "tcp" },
   { NodeName := "node4", OwnerID := ownerID, FromPort := 2345, ToPort := 5432,
     IP := "192.172.0.4/32", Protocol := "tcp" },
   { NodeName := "node5", OwnerID := ownerID, FromPort := 2345, ToPort := 5432,
     IP := "192.172.0.5/32", Protocol := "tcp" }]

/-- The grouped rule of the scenarios: port 5432/tcp with one address tagged
for "team-a" and one tagged for "team-b". -/
def scenarioRule : IpPermission :=
  { FromPort := some 5432, ToPort := some 5432, IpProtocol := some "tcp",
    IpRanges :=
      [{ CidrIp := some "10.0.0.1/32", Description := some "ownerid=team-a ; nodename=n1" },
       { CidrIp := some "10.0.0.2/32", Description := some "ownerid=team-b ; nodename=n2" }] }

/-- The atomic entry of "team-b" in `scenarioRule`. -/
def scenarioForeign : IpPermission :=
  { FromPort := some 5432, ToPort := some 5432, IpProtocol := some "tcp",
    IpRanges :=
      [{ CidrIp := some "10.0.0.2/32", Description := some "ownerid=team-b ; nodename=n2" }] }

/-- The context of instance "team-a" on a firewall holding `scenarioRule`. -/
def scenarioContext : AwsContext :=
  { ec2 := EC2.serving [scenarioRule], SecurityGroupID := "sg-1", OwnerID := "team-a" }

/-- A desired entry of "team-a". -/
def newEntry : RuleEntry :=
  { NodeName := "n3", OwnerID := "team-a", FromPort := 5432, ToPort := 5432,
    IP := "10.0.0.3/32", Protocol := "tcp" }

/-- A desired entry whose OwnerID field names another owner, "team-b". -/
def otherEntry : RuleEntry :=
  { NodeName := "n3", OwnerID := "team-b", FromPort := 5432, ToPort := 5432,
    IP := "10.0.0.3/32", Protocol := "tcp" }

/-- The context after `scenarioContext.ReplaceOwnedEntries [newEntry]`. -/
def scenarioAfter : AwsContext :=
  { ec2 :=
      { IpPermissions := [scenarioForeign, replacement newEntry],
        describeErr := none, revokeErr := none, authorizeErr := none,
        calls :=
          [Call.DescribeSecurityGroups, Call.RevokeSecurityGroupIngress [scenarioRule],
           Call.AuthorizeSecurityGroupIngress [scenarioForeign, replacement newEntry]] },
    SecurityGroupID := "sg-1", OwnerID := "team-a" }

/-! ## The scanner -/

theorem SkipSpace_cons_notSpace (c : Char) (rest : List Char) (h : isSpace c = false) :
    SkipSpace (c :: rest) = .ok (c :: rest) := by
  have h1 : c ≠ '\r' := by rintro rfl; exact absurd h (by decide)
  have h2 : c ≠ '\n' := by rintro rfl; exact absurd h (by decide)
  simp [SkipSpace, h1, h2, h]

theorem takeWhile_notSpace_word (w rest : List Char) (hw : ∀ c ∈ w, isSpace c = false)
    (hr : ∀ c ∈ rest.head?, isSpace c = true) :
    (w ++ rest).takeWhile notSpace = w ∧ (w ++ rest).dropWhile notSpace = rest := by
  induction w with
  | nil =>
    cases rest with
    | nil => simp
    | cons c t =>
      have : isSpace c = true := hr c (by simp)
      simp [List.takeWhile, List.dropWhile, notSpace, this]
  | cons a w ih =>
    have ha : isSpace a = false := hw a (by simp)
    have := ih (fun c hc => hw c (by simp [hc]))
    simp [List.takeWhile, List.dropWhile, notSpace, ha, this]

theorem convertString_word (w rest : List Char) (hne : w ≠ [])
    (hw : ∀ c ∈ w, isSpace c = false) (hr : ∀ c ∈ rest.head?, isSpace c = true) :
    convertString (w ++ rest) = .ok (w, rest) := by
  obtain ⟨hT, hD⟩ := takeWhile_notSpace_word w rest hw hr
  cases w with
  | nil => exact absurd rfl hne
  | cons a w =>
    have ha : isSpace a = false := hw a (by simp)
    have hS : SkipSpace (a :: (w ++ rest)) = .ok (a :: (w ++ rest)) :=
      SkipSpace_cons_notSpace a _ ha
    simp only [List.cons_append] at hT hD ⊢
    simp [convertString, token, hS, notEOF, hT, hD]

theorem doScanf_rune (n : Nat) (f : Char) (fmt inp : List Char) (vals : List (List Char))
    (h : f ≠ '%') :
    doScanf n (f :: fmt) inp vals =
      match advanceRune f fmt inp with
      | .error e => .error e
      | .ok inp => doScanf n fmt inp vals := by
  cases fmt with
  | nil => rw [doScanf]; simp [h]
  | cons c fmt => rw [doScanf]; simp [h]

theorem doScanf_verb (n : Nat) (c : Char) (fmt inp : List Char) (vals : List (List Char)) :
    doScanf n ('%' :: c :: fmt) inp vals =
      match scanVerb n c inp vals with
      | .error e => .error e
      | .ok (inp, vals) => doScanf n fmt inp vals := by
  rw [doScanf]; simp

theorem doScanf_lit (n : Nat) (f : Char) (fmt inp : List Char) (vals : List (List Char))
    (h1 : f ≠ '%') (h2 : isSpace f = false) :
    doScanf n (f :: fmt) (f :: inp) vals = doScanf n fmt inp vals := by
  rw [doScanf_rune _ _ _ _ _ h1]
  simp [advanceRune, h2]

theorem descriptionFormat_data :
    descriptionFormat.data =
      ['o', 'w', 'n', 'e', 'r', 'i', 'd', '=', '%', 's', ' ', ';', ' ',
       'n', 'o', 'd', 'e', 'n', 'a', 'm', 'e', '=', '%', 's'] := rfl

theorem SkipSpace_blank (a : Char) (rest : List Char) (h1 : isSpace a = true)
    (h2 : a ≠ '\n') : SkipSpace (a :: rest) = SkipSpace rest := by
  rw [SkipSpace]
  simp [h1, h2]

theorem SkipSpace_append (w out : List Char) (hw : ∀ c ∈ w, isSpace c = true ∧ c ≠ '\n')
    (ho : ∀ c ∈ out.head?, isSpace c = false) : SkipSpace (w ++ out) = .ok out := by
  induction w with
  | nil =>
    cases out with
    | nil => rfl
    | cons c t => exact SkipSpace_cons_notSpace c t (ho c (by simp))
  | cons a w ih =>
    obtain ⟨h1, h2⟩ := hw a (by simp)
    rw [List.cons_append, SkipSpace_blank a _ h1 h2]
    exact ih (fun c hc => hw c (by simp [hc]))

theorem SkipSpace_ok (inp out : List Char) (h : SkipSpace inp = .ok out) :
    ∃ w, inp = w ++ out ∧ (∀ c ∈ w, isSpace c = true ∧ c ≠ '\n') ∧
      (∀ c ∈ out.head?, isSpace c = false) := by
  induction inp with
  | nil =>
    simp [SkipSpace] at h
    subst h
    exact ⟨[], by simp⟩
  | cons r rest ih =>
    by_cases hn : r = '\n'
    · subst hn
      rw [SkipSpace] at h
      simp at h
    · by_cases hs : isSpace r = true
      · rw [SkipSpace_blank r rest hs hn] at h
        obtain ⟨w, hw1, hw2, hw3⟩ := ih h
        refine ⟨r :: w, by simp [hw1], ?_, hw3⟩
        intro c hc
        rcases List.mem_cons.mp hc with rfl | hc
        · exact ⟨hs, hn⟩
        · exact hw2 c hc
      · have hs2 : isSpace r = false := by simpa using hs
        rw [SkipSpace_cons_notSpace r rest hs2] at h
        injection h with h
        subst h
        exact ⟨[], by simp [hs2]⟩

theorem skipBlanks_append (w out : List Char) (hw : ∀ c ∈ w, isSpace c = true ∧ c ≠ '\n')
    (ho : ∀ c ∈ out.head?, ¬ (isSpace c = true ∧ c ≠ '\n')) : skipBlanks (w ++ out) = out := by
  induction w with
  | nil =>
    cases out with
    | nil => rfl
    | cons c t =>
      have := ho c (by simp)
      simp only [List.nil_append, skipBlanks]
      rw [if_neg]
      simpa using this
  | cons a w ih =>
    obtain ⟨h1, h2⟩ := hw a (by simp)
    have e : skipBlanks (a :: (w ++ out)) = skipBlanks (w ++ out) := by
      simp [skipBlanks, h1, h2]
    rw [List.cons_append, e]
    exact ih (fun c hc => hw c (by simp [hc]))

theorem skipBlanks_ok (inp : List Char) :
    ∃ w, inp = w ++ skipBlanks inp ∧ (∀ c ∈ w, isSpace c = true ∧ c ≠ '\n') ∧
      (∀ c ∈ (skipBlanks inp).head?, ¬ (isSpace c = true ∧ c ≠ '\n')) := by
  induction inp with
  | nil => exact ⟨[], by simp [skipBlanks]⟩
  | cons r rest ih =>
    by_cases hb : isSpace r = true ∧ r ≠ '\n'
    · obtain ⟨w, hw1, hw2, hw3⟩ := ih
      have e : skipBlanks (r :: rest) = skipBlanks rest := by
        simp [skipBlanks, hb.1, hb.2]
      rw [e]
      refine ⟨r :: w, by rw [List.cons_append, ← hw1], ?_, hw3⟩
      intro c hc
      rcases List.mem_cons.mp hc with rfl | hc
      · exact hb
      · exact hw2 c hc
    · have e : skipBlanks (r :: rest) = r :: rest := by
        simp only [skipBlanks]
        rw [if_neg]
        simpa using hb
      rw [e]
      exact ⟨[], by simp, by simp, by simpa using hb⟩

theorem advanceSpace_append (w out : List Char) (hne : w ≠ [])
    (hw : ∀ c ∈ w, isSpace c = true ∧ c ≠ '\n')
    (ho : ∀ c ∈ out.head?, ¬ (isSpace c = true ∧ c ≠ '\n')) :
    advanceSpace (w ++ out) = .ok out := by
  cases w with
  | nil => exact absurd rfl hne
  | cons a w =>
    obtain ⟨h1, h2⟩ := hw a (by simp)
    have := skipBlanks_append (a :: w) out hw ho
    simp only [List.cons_append] at this ⊢
    simp [advanceSpace, h1, h2, this]

theorem advanceSpace_ok (inp out : List Char) (h : advanceSpace inp = .ok out) :
    (inp = [] ∧ out = []) ∨
    ∃ w, w ≠ [] ∧ inp = w ++ out ∧ (∀ c ∈ w, isSpace c = true ∧ c ≠ '\n') ∧
      (∀ c ∈ out.head?, ¬ (isSpace c = true ∧ c ≠ '\n')) := by
  cases inp with
  | nil =>
    simp [advanceSpace] at h
    exact Or.inl ⟨rfl, h⟩
  | cons r rest =>
    right
    by_cases hs : isSpace r = true
    · by_cases hn : r = '\n'
      · subst hn
        simp [advanceSpace, hs] at h
      · simp only [advanceSpace, hs, hn] at h
        simp at h
        obtain ⟨w, hw1, hw2, hw3⟩ := skipBlanks_ok (r :: rest)
        rw [h] at hw1 hw3
        refine ⟨w, ?_, hw1, hw2, hw3⟩
        rintro rfl
        simp only [List.nil_append] at hw1
        subst hw1
        exact hw3 r (by simp) ⟨hs, hn⟩
    · simp [advanceSpace, hs] at h

theorem convertString_eq (c : Char) (t : List Char) (hc : isSpace c = false) :
    convertString (c :: t) =
      .ok ((c :: t).takeWhile notSpace, (c :: t).dropWhile notSpace) := by
  simp only [convertString, token, SkipSpace_cons_notSpace c t hc, notEOF]
  simp

theorem scanVerb_append (n : Nat) (w str out : List Char) (vals : List (List Char))
    (hlen : vals.length < n) (hw : ∀ c ∈ w, isSpace c = true ∧ c ≠ '\n')
    (hne : str ≠ []) (hstr : ∀ c ∈ str, isSpace c = false)
    (ho : ∀ c ∈ out.head?, isSpace c = true) :
    scanVerb n 's' (w ++ (str ++ out)) vals = .ok (out, vals ++ [str]) := by
  have h1 : SkipSpace (w ++ (str ++ out)) = .ok (str ++ out) := by
    apply SkipSpace_append w _ hw
    cases str with
    | nil => exact absurd rfl hne
    | cons a str =>
      intro c hc
      simp at hc
      subst hc
      exact hstr _ (by simp)
  have h2 := convertString_word str out hne hstr ho
  have h3 : ¬ n ≤ vals.length := by omega
  simp [scanVerb, h1, h2, h3]

theorem scanVerb_ok (n : Nat) (inp out : List Char) (vals vals2 : List (List Char))
    (h : scanVerb n 's' inp vals = .ok (out, vals2)) :
    vals.length < n ∧ ∃ w str, inp = w ++ (str ++ out) ∧ vals2 = vals ++ [str] ∧
      (∀ c ∈ w, isSpace c = true ∧ c ≠ '\n') ∧ str ≠ [] ∧
      (∀ c ∈ str, isSpace c = false) ∧ (∀ c ∈ out.head?, isSpace c = true) := by
  simp only [scanVerb] at h
  simp only [Bool.or_eq_true, decide_eq_true_eq, true_or, if_true] at h
  cases h1 : SkipSpace inp with
  | error e => simp [h1] at h
  | ok inp1 =>
    obtain ⟨w, hw1, hw2, hw3⟩ := SkipSpace_ok inp inp1 h1
    simp only [h1] at h
    by_cases hlen : vals.length ≥ n
    · simp [hlen] at h
    · simp only [hlen, if_false] at h
      refine ⟨by omega, ?_⟩
      cases inp1 with
      | nil => simp [convertString, SkipSpace, notEOF] at h
      | cons c t =>
        have hc : isSpace c = false := hw3 c (by simp)
        rw [convertString_eq c t hc] at h
        simp only [Except.ok.injEq, Prod.mk.injEq] at h
        obtain ⟨hout, hvals⟩ := h
        refine ⟨w, (c :: t).takeWhile notSpace, ?_, hvals.symm, hw2, ?_, ?_, ?_⟩
        · rw [← hout, List.takeWhile_append_dropWhile]
          exact hw1
        · simp [List.takeWhile, notSpace, hc]
        · intro x hx
          have := List.mem_takeWhile_imp hx
          simpa [notSpace] using this
        · intro x hx
          rw [← hout] at hx
          have := List.head?_dropWhile_not notSpace (c :: t)
          rw [Option.mem_def.mp hx] at this
          simpa [notSpace] using this

theorem doScanf_lit_ok (n : Nat) (f : Char) (fmt inp : List Char) (vals r : List (List Char))
    (h1 : f ≠ '%') (h2 : isSpace f = false) (h : doScanf n (f :: fmt) inp vals = .ok r) :
    ∃ rest, inp = f :: rest ∧ doScanf n fmt rest vals = .ok r := by
  rw [doScanf_rune _ _ _ _ _ h1] at h
  cases inp with
  | nil => simp [advanceRune, h2] at h
  | cons c rest =>
    by_cases hfc : f = c
    · subst hfc
      simp [advanceRune, h2] at h
      exact ⟨rest, rfl, h⟩
    · simp [advanceRune, h2, hfc] at h

theorem doScanf_space (n : Nat) (f : Char) (fmt inp : List Char) (vals : List (List Char))
    (h1 : isSpace f = true) (h2 : f ≠ '\n') (h3 : runContinues fmt = false) :
    doScanf n (f :: fmt) inp vals =
      match advanceSpace inp with
      | .error e => .error e
      | .ok inp => doScanf n fmt inp vals := by
  have h0 : f ≠ '%' := by rintro rfl; exact absurd h1 (by decide)
  rw [doScanf_rune _ _ _ _ _ h0]
  simp [advanceRune, h1, h2, h3]

theorem doScanf_space_ok (n : Nat) (f : Char) (fmt inp : List Char) (vals r : List (List Char))
    (h1 : isSpace f = true) (h2 : f ≠ '\n') (h3 : runContinues fmt = false)
    (h : doScanf n (f :: fmt) inp vals = .ok r) :
    ∃ rest, advanceSpace inp = .ok rest ∧ doScanf n fmt rest vals = .ok r := by
  rw [doScanf_space _ _ _ _ _ h1 h2 h3] at h
  cases h4 : advanceSpace inp with
  | error e => simp [h4] at h
  | ok rest =>
    simp only [h4] at h
    exact ⟨rest, rfl, h⟩

theorem doScanf_verb_ok (n : Nat) (fmt inp : List Char) (vals r : List (List Char))
    (h : doScanf n ('%' :: 's' :: fmt) inp vals = .ok r) :
    ∃ rest vals2, scanVerb n 's' inp vals = .ok (rest, vals2) ∧
      doScanf n fmt rest vals2 = .ok r := by
  rw [doScanf_verb] at h
  cases h4 : scanVerb n 's' inp vals with
  | error e => simp [h4] at h
  | ok p =>
    obtain ⟨rest, vals2⟩ := p
    simp only [h4] at h
    exact ⟨rest, vals2, rfl, h⟩

theorem doScanf_nil (n : Nat) (inp : List Char) (vals : List (List Char)) (h : n ≤ vals.length) :
    doScanf n [] inp vals = .ok vals := by
  rw [doScanf]
  simp [h]

/-- What `Sscanf` with `descriptionFormat` accepts: the template up to white
space, with anything after the second word. -/
theorem doScanf_description_ok (inp : List Char) (r : List (List Char))
    (h : doScanf 2 descriptionFormat.data inp [] = .ok r) :
    ∃ w1 owner w2 w3 w4 node rest,
      inp = "ownerid=".data ++ w1 ++ owner ++ w2 ++ ";".data ++ w3 ++ "nodename=".data ++ w4
        ++ node ++ rest ∧
      r = [owner, node] ∧
      (∀ c ∈ w1 ++ w2 ++ w3 ++ w4, isSpace c = true ∧ c ≠ '\n') ∧ w2 ≠ [] ∧ w3 ≠ [] ∧
      owner ≠ [] ∧ node ≠ [] ∧ (∀ c ∈ owner ++ node, isSpace c = false) ∧
      (∀ c ∈ rest.head?, isSpace c = true) := by
  rw [descriptionFormat_data] at h
  obtain ⟨i1, rfl, g1⟩ := doScanf_lit_ok _ _ _ _ _ _ (by decide) (by decide) h
  obtain ⟨i2, rfl, g2⟩ := doScanf_lit_ok _ _ _ _ _ _ (by decide) (by decide) g1
  obtain ⟨i3, rfl, g3⟩ := doScanf_lit_ok _ _ _ _ _ _ (by decide) (by decide) g2
  obtain ⟨i4, rfl, g4⟩ := doScanf_lit_ok _ _ _ _ _ _ (by decide) (by decide) g3
  obtain ⟨i5, rfl, g5⟩ := doScanf_lit_ok _ _ _ _ _ _ (by decide) (by decide) g4
  obtain ⟨i6, rfl, g6⟩ := doScanf_lit_ok _ _ _ _ _ _ (by decide) (by decide) g5
  obtain ⟨i7, rfl, g7⟩ := doScanf_lit_ok _ _ _ _ _ _ (by decide) (by decide) g6
  obtain ⟨i8, rfl, g8⟩ := doScanf_lit_ok _ _ _ _ _ _ (by decide) (by decide) g7
  obtain ⟨i9, v1, hv1, g9⟩ := doScanf_verb_ok _ _ _ _ _ g8
  obtain ⟨-, w1, owner, rfl, rfl, hw1, hone, hos, ho1⟩ := scanVerb_ok _ _ _ _ _ hv1
  obtain ⟨i10, hs1, g10⟩ := doScanf_space_ok _ _ _ _ _ _ (by decide) (by decide) (by decide) g9
  obtain ⟨i11, rfl, g11⟩ := doScanf_lit_ok _ _ _ _ _ _ (by decide) (by decide) g10
  obtain ⟨i12, hs2, g12⟩ := doScanf_space_ok _ _ _ _ _ _ (by decide) (by decide) (by decide) g11
  obtain ⟨i13, rfl, g13⟩ := doScanf_lit_ok _ _ _ _ _ _ (by decide) (by decide) g12
  obtain ⟨i14, rfl, g14⟩ := doScanf_lit_ok _ _ _ _ _ _ (by decide) (by decide) g13
  obtain ⟨i15, rfl, g15⟩ := doScanf_lit_ok _ _ _ _ _ _ (by decide) (by decide) g14
  obtain ⟨i16, rfl, g16⟩ := doScanf_lit_ok _ _ _ _ _ _ (by decide) (by decide) g15
  obtain ⟨i17, rfl, g17⟩ := doScanf_lit_ok _ _ _ _ _ _ (by decide) (by decide) g16
  obtain ⟨i18, rfl, g18⟩ := doScanf_lit_ok _ _ _ _ _ _ (by decide) (by decide) g17
  obtain ⟨i19, rfl, g19⟩ := doScanf_lit_ok _ _ _ _ _ _ (by decide) (by decide) g18
  obtain ⟨i20, rfl, g20⟩ := doScanf_lit_ok _ _ _ _ _ _ (by decide) (by decide) g19
  obtain ⟨i21, rfl, g21⟩ := doScanf_lit_ok _ _ _ _ _ _ (by decide) (by decide) g20
  obtain ⟨i22, v2, hv2, g22⟩ := doScanf_verb_ok _ _ _ _ _ g21
  obtain ⟨-, w4, node, rfl, rfl, hw4, hnne, hns, hn1⟩ := scanVerb_ok _ _ _ _ _ hv2
  rw [doScanf_nil _ _ _ (by simp)] at g22
  injection g22 with hr
  subst hr
  rcases advanceSpace_ok _ _ hs2 with ⟨-, h⟩ | ⟨w3, hw3ne, rfl, hw3, -⟩
  · simp at h
  rcases advanceSpace_ok _ _ hs1 with ⟨-, h⟩ | ⟨w2, hw2ne, rfl, hw2, -⟩
  · simp at h
  refine ⟨w1, owner, w2, w3, w4, node, i22, ?_, by simp, ?_, hw2ne, hw3ne, hone, hnne, ?_, hn1⟩
  · have e1 : "ownerid=".data = ['o', 'w', 'n', 'e', 'r', 'i', 'd', '='] := rfl
    have e2 : "nodename=".data = ['n', 'o', 'd', 'e', 'n', 'a', 'm', 'e', '='] := rfl
    have e3 : ";".data = [';'] := rfl
    rw [e1, e2, e3]
    simp
  · intro c hc
    simp only [List.mem_append] at hc
    rcases hc with ((hc | hc) | hc) | hc
    · exact hw1 c hc
    · exact hw2 c hc
    · exact hw3 c hc
    · exact hw4 c hc
  · intro c hc
    rcases List.mem_append.mp hc with hc | hc
    · exact hos c hc
    · exact hns c hc

/-- Every string of that shape is accepted, with the two words as values. -/
theorem doScanf_description_accepts (w1 owner w2 w3 w4 node rest : List Char)
    (hw : ∀ c ∈ w1 ++ w2 ++ w3 ++ w4, isSpace c = true ∧ c ≠ '\n')
    (hw2 : w2 ≠ []) (hw3 : w3 ≠ []) (ho : owner ≠ []) (hn : node ≠ [])
    (hs : ∀ c ∈ owner ++ node, isSpace c = false)
    (hr : ∀ c ∈ rest.head?, isSpace c = true) :
    doScanf 2 descriptionFormat.data
      ("ownerid=".data ++ w1 ++ owner ++ w2 ++ ";".data ++ w3 ++ "nodename=".data ++ w4
        ++ node ++ rest) [] = .ok [owner, node] := by
  have e1 : "ownerid=".data = ['o', 'w', 'n', 'e', 'r', 'i', 'd', '='] := rfl
  have e2 : "nodename=".data = ['n', 'o', 'd', 'e', 'n', 'a', 'm', 'e', '='] := rfl
  have e3 : ";".data = [';'] := rfl
  have hb1 : ∀ c ∈ w1, isSpace c = true ∧ c ≠ '\n' := fun c hc => hw c (by simp [hc])
  have hb2 : ∀ c ∈ w2, isSpace c = true ∧ c ≠ '\n' := fun c hc => hw c (by simp [hc])
  have hb3 : ∀ c ∈ w3, isSpace c = true ∧ c ≠ '\n' := fun c hc => hw c (by simp [hc])
  have hb4 : ∀ c ∈ w4, isSpace c = true ∧ c ≠ '\n' := fun c hc => hw c (by simp [hc])
  have hso : ∀ c ∈ owner, isSpace c = false := fun c hc => hs c (by simp [hc])
  have hsn : ∀ c ∈ node, isSpace c = false := fun c hc => hs c (by simp [hc])
  rw [e1, e2, e3, descriptionFormat_data]
  simp only [List.cons_append, List.nil_append, List.append_assoc]
  iterate 8 rw [doScanf_lit _ _ _ _ _ (by decide) (by decide)]
  rw [doScanf_verb, scanVerb_append 2 w1 owner _ [] (by simp) hb1 ho hso]
  · simp only [List.nil_append]
    rw [doScanf_space _ _ _ _ _ (by decide) (by decide) (by decide),
      advanceSpace_append w2 _ hw2 hb2]
    · simp only []
      rw [doScanf_lit _ _ _ _ _ (by decide) (by decide),
        doScanf_space _ _ _ _ _ (by decide) (by decide) (by decide),
        advanceSpace_append w3 _ hw3 hb3]
      · simp only []
        iterate 9 rw [doScanf_lit _ _ _ _ _ (by decide) (by decide)]
        rw [doScanf_verb, scanVerb_append 2 w4 node rest [owner] (by simp) hb4 hn hsn hr]
        simp only [List.singleton_append]
        rw [doScanf_nil _ _ _ (by simp)]
      · intro c hc
        simp only [List.head?_cons, Option.mem_def, Option.some.injEq] at hc
        subst hc
        decide
    · intro c hc
      simp only [List.head?_cons, Option.mem_def, Option.some.injEq] at hc
      subst hc
      decide
  · cases w2 with
    | nil => exact absurd rfl hw2
    | cons a w2 =>
      intro c hc
      simp only [List.cons_append, List.head?_cons, Option.mem_def, Option.some.injEq] at hc
      subst hc
      exact (hb2 _ (by simp)).1

/-! ## The ownership codec -/

theorem isSpaceIn_ascii :
    ∀ n, n < 128 → (isSpaceIn space n = true ↔ (9 ≤ n ∧ n ≤ 13) ∨ n = 32) := by
  decide

theorem isSpace_ascii (c : Char) (h : c.toNat < 128) :
    isSpace c = true ↔ (9 ≤ c.toNat ∧ c.toNat ≤ 13) ∨ c.toNat = 32 := by
  have h2 : ¬ c.toNat ≥ 2 ^ 16 := by
    have : (128 : Nat) < 2 ^ 16 := by norm_num
    omega
  rw [isSpace, if_neg h2]
  exact isSpaceIn_ascii c.toNat h

theorem isSpace_of_isIdentRune (c : Char) (h : isIdentRune c = true) : isSpace c = false := by
  simp only [isIdentRune, Bool.or_eq_true, Bool.and_eq_true, decide_eq_true_eq,
    beq_iff_eq] at h
  have h1 : c.toNat < 128 := by omega
  have h2 := isSpace_ascii c h1
  cases hs : isSpace c with
  | false => rfl
  | true =>
    have := h2.mp hs
    omega

theorem ParseDescription_some_iff (s owner node : String) :
    ParseDescription (some s) = .ok (some (owner, node)) ↔
      doScanf 2 descriptionFormat.data s.data [] = .ok [owner.data, node.data] := by
  simp only [ParseDescription, Sscanf]
  constructor
  · intro h
    split at h
    · rename_i o n heq
      simp only [Except.ok.injEq, Option.some.injEq, Prod.mk.injEq] at h
      rw [heq, ← h.1, ← h.2]
    · simp at h
  · intro h
    rw [h]

theorem RuleEntryFromDescription_eq (s : String) :
    RuleEntryFromDescription (some s) =
      match ParseDescription (some s) with
      | .ok (some (owner, node)) =>
        .ok (some { NodeName := node, OwnerID := owner, FromPort := 0, ToPort := 0,
                    IP := "", Protocol := "" })
      | _ => .ok none := by
  simp only [RuleEntryFromDescription, ParseDescription]
  split <;> simp_all

theorem GetDescription_data (r : RuleEntry) :
    r.GetDescription.data =
      "ownerid=".data ++ [] ++ r.OwnerID.data ++ [' '] ++ ";".data ++ [' '] ++ "nodename=".data
        ++ [] ++ r.NodeName.data ++ [] := by
  simp [RuleEntry.GetDescription, String.data_append]

theorem ParseDescription_GetDescription (r : RuleEntry)
    (ho : r.OwnerID.data ≠ []) (hn : r.NodeName.data ≠ [])
    (hos : ∀ c ∈ r.OwnerID.data, isSpace c = false)
    (hns : ∀ c ∈ r.NodeName.data, isSpace c = false) :
    ParseDescription (some r.GetDescription) = .ok (some (r.OwnerID, r.NodeName)) := by
  rw [ParseDescription_some_iff, GetDescription_data]
  refine doScanf_description_accepts _ _ _ _ _ _ _ ?_ (by simp) (by simp) ho hn ?_ (by simp)
  · intro c hc
    simp only [List.append_nil, List.nil_append, List.mem_append, List.mem_singleton] at hc
    rcases hc with rfl | rfl <;> decide
  · intro c hc
    rcases List.mem_append.mp hc with hc | hc
    · exact hos c hc
    · exact hns c hc

/-- C1 (as the claim states it, refuted): neither the empty owner nor the
owner "a b" contains the delimiter " ; " (hence none of the longer literal
pieces of the template around it), yet the encoded description does not decode:
`ParseDescription` returns nil for it. -/
theorem C1_roundtrip_counterexample :
    (¬ " ; ".data <:+: "".data ∧ ¬ " ; ".data <:+: "n".data ∧
      ParseDescription (some (RuleEntry.GetDescription
        { NodeName := "n", OwnerID := "", FromPort := 0, ToPort := 0, IP := "",
          Protocol := "" })) = .ok none) ∧
    (¬ " ; ".data <:+: "a b".data ∧ ¬ " ; ".data <:+: "n".data ∧
      ParseDescription (some (RuleEntry.GetDescription
        { NodeName := "n", OwnerID := "a b", FromPort := 0, ToPort := 0, IP := "",
          Protocol := "" })) = .ok none) := by
  decide

/-- C1 (amended): for every entry whose owner and node name are non-empty and
contain no white-space rune, decoding the encoded description gives back the
same pair: `ParseDescription` of `GetDescription` returns (OwnerID, NodeName). -/
theorem C1_roundtrip (r : RuleEntry) (ho : r.OwnerID ≠ "") (hn : r.NodeName ≠ "")
    (hos : ∀ c ∈ r.OwnerID.data, isSpace c = false)
    (hns : ∀ c ∈ r.NodeName.data, isSpace c = false) :
    ParseDescription (some r.GetDescription) = .ok (some (r.OwnerID, r.NodeName)) := by
  apply ParseDescription_GetDescription r _ _ hos hns
  · intro h
    exact ho (String.ext h)
  · intro h
    exact hn (String.ext h)

theorem C1_roundtrip_witness :
    ParseDescription (some (RuleEntry.GetDescription
      { NodeName := "node1", OwnerID := "team-a", FromPort := 2345, ToPort := 5432,
        IP := "192.172.0.1/32", Protocol := "tcp" })) = .ok (some ("team-a", "node1")) :=
  C1_roundtrip
    { NodeName := "node1", OwnerID := "team-a", FromPort := 2345, ToPort := 5432,
      IP := "192.172.0.1/32", Protocol := "tcp" }
    (by decide) (by decide) (by decide) (by decide)

/-- C2: for every non-empty owner and node name made only of letters, digits
and hyphens, `GetDescription` returns exactly "ownerid=<owner> ; nodename=<node>",
and `RuleEntryFromDescription` of that string returns a non-nil RuleEntry with
that OwnerID and NodeName and zero values in FromPort, ToPort, IP and
Protocol. -/
theorem C2_description_of_identifiers (r : RuleEntry)
    (ho : r.OwnerID ≠ "") (hn : r.NodeName ≠ "")
    (hoi : ∀ c ∈ r.OwnerID.data, isIdentRune c = true)
    (hni : ∀ c ∈ r.NodeName.data, isIdentRune c = true) :
    r.GetDescription = "ownerid=" ++ r.OwnerID ++ " ; nodename=" ++ r.NodeName ∧
    RuleEntryFromDescription (some ("ownerid=" ++ r.OwnerID ++ " ; nodename=" ++ r.NodeName)) =
      .ok (some { NodeName := r.NodeName, OwnerID := r.OwnerID, FromPort := 0, ToPort := 0,
                  IP := "", Protocol := "" }) := by
  refine ⟨rfl, ?_⟩
  have h := ParseDescription_GetDescription r (fun h => ho (String.ext h))
    (fun h => hn (String.ext h)) (fun c hc => isSpace_of_isIdentRune c (hoi c hc))
    (fun c hc => isSpace_of_isIdentRune c (hni c hc))
  rw [RuleEntryFromDescription_eq]
  simp only [RuleEntry.GetDescription] at h
  rw [h]

theorem C2_description_of_identifiers_witness :
    RuleEntry.GetDescription
      { NodeName := "a-3", OwnerID := "a-3", FromPort := 0, ToPort := 0, IP := "",
        Protocol := "" } = "ownerid=" ++ "a-3" ++ " ; nodename=" ++ "a-3" ∧
    RuleEntryFromDescription (some ("ownerid=" ++ "a-3" ++ " ; nodename=" ++ "a-3")) =
      .ok (some { NodeName := "a-3", OwnerID := "a-3", FromPort := 0, ToPort := 0,
                  IP := "", Protocol := "" }) :=
  C2_description_of_identifiers
    { NodeName := "a-3", OwnerID := "a-3", FromPort := 0, ToPort := 0, IP := "", Protocol := "" }
    (by decide) (by decide) (by decide) (by decide)

/-- C3 (as the claim states it, refuted): a description with extra spaces and
trailing text decodes to ("a", "b") although it is not the string
`GetDescription` produces for that pair. -/
theorem C3_exact_template_counterexample :
    ParseDescription (some "ownerid=  a   ;  nodename= b trailing text") =
      .ok (some ("a", "b")) ∧
    "ownerid=  a   ;  nodename= b trailing text" ≠
      RuleEntry.GetDescription
        { NodeName := "b", OwnerID := "a", FromPort := 0, ToPort := 0, IP := "",
          Protocol := "" } := by
  decide

/-- C3 (amended): `ParseDescription` never panics on a non-nil description and
returns the pair (owner, node) exactly for the strings that match the template
up to white space and trailing text: "ownerid=", any blanks, owner, one or more
blanks, ";", one or more blanks, "nodename=", any blanks, node, and then either
the end of the string or a white-space rune followed by anything; owner and
node are non-empty and free of white space, a blank is a white-space rune
other than the newline. For every other string it returns nil. -/
theorem C3_parse_matches_template (s owner node : String) :
    (∃ r, ParseDescription (some s) = .ok r) ∧
    (ParseDescription (some s) = .ok (some (owner, node)) ↔
      ∃ w1 w2 w3 w4 rest : List Char,
        s.data = "ownerid=".data ++ w1 ++ owner.data ++ w2 ++ ";".data ++ w3 ++
          "nodename=".data ++ w4 ++ node.data ++ rest ∧
        (∀ c ∈ w1 ++ w2 ++ w3 ++ w4, isSpace c = true ∧ c ≠ '\n') ∧ w2 ≠ [] ∧ w3 ≠ [] ∧
        owner ≠ "" ∧ node ≠ "" ∧ (∀ c ∈ owner.data ++ node.data, isSpace c = false) ∧
        (∀ c ∈ rest.head?, isSpace c = true)) := by
  constructor
  · simp only [ParseDescription]
    split <;> exact ⟨_, rfl⟩
  · rw [ParseDescription_some_iff]
    constructor
    · intro h
      obtain ⟨w1, o, w2, w3, w4, n, rest, h1, h2, h3, h4, h5, h6, h7, h8, h9⟩ :=
        doScanf_description_ok _ _ h
      simp only [Except.ok.injEq, List.cons.injEq, and_true] at h2
      obtain ⟨rfl, rfl⟩ := h2
      refine ⟨w1, w2, w3, w4, rest, h1, h3, h4, h5, ?_, ?_, h8, h9⟩
      · rintro rfl
        exact h6 rfl
      · rintro rfl
        exact h7 rfl
    · rintro ⟨w1, w2, w3, w4, rest, h1, h3, h4, h5, h6, h7, h8, h9⟩
      rw [h1]
      exact doScanf_description_accepts w1 _ w2 w3 w4 _ rest h3 h4 h5
        (fun h => h6 (String.ext h)) (fun h => h7 (String.ext h)) h8 h9

/-! ## Expansion and partition -/

theorem expandRule_eq_map (rule : IpPermission) (ranges : List IpRange) :
    expandRule rule ranges =
      ranges.map (fun iprange =>
        { FromPort := rule.FromPort, ToPort := rule.ToPort, IpProtocol := rule.IpProtocol,
          IpRanges := [iprange] }) := by
  induction ranges with
  | nil => rfl
  | cons r rest ih => simp [expandRule, ih]

theorem expandRules_append (l1 l2 : List IpPermission) :
    expandRules (l1 ++ l2) = expandRules l1 ++ expandRules l2 := by
  induction l1 with
  | nil => rfl
  | cons r rest ih => simp [expandRules, ih]

theorem expandRules_atomic (l : List IpPermission) (h : ∀ e ∈ l, ∃ r, e.IpRanges = [r]) :
    expandRules l = l := by
  induction l with
  | nil => rfl
  | cons e rest ih =>
    obtain ⟨r, hr⟩ := h e (by simp)
    have he : expandRule e e.IpRanges = [e] := by
      rw [hr]
      simp only [expandRule]
      cases e
      simp_all
    simp [expandRules, he, ih (fun x hx => h x (by simp [hx]))]

theorem mem_expandRules (l : List IpPermission) (e : IpPermission) (h : e ∈ expandRules l) :
    ∃ rule ∈ l, ∃ r ∈ rule.IpRanges, e =
      { FromPort := rule.FromPort, ToPort := rule.ToPort, IpProtocol := rule.IpProtocol,
        IpRanges := [r] } := by
  induction l with
  | nil => simp [expandRules] at h
  | cons rule rest ih =>
    simp only [expandRules, List.mem_append] at h
    rcases h with h | h
    · rw [expandRule_eq_map] at h
      obtain ⟨r, hr, rfl⟩ := List.mem_map.mp h
      exact ⟨rule, by simp, r, hr, rfl⟩
    · obtain ⟨rule2, h1, h2⟩ := ih h
      exact ⟨rule2, by simp [h1], h2⟩

theorem expandRules_idem (l : List IpPermission) : expandRules (expandRules l) = expandRules l := by
  apply expandRules_atomic
  intro e he
  obtain ⟨rule, -, r, -, rfl⟩ := mem_expandRules l e he
  exact ⟨r, rfl⟩

theorem filterLoop_ok (ownerID : String) (returnOwned : Bool) (l : List IpPermission)
    (h : ∀ e ∈ l, ∃ b, isRuleOwnedByID e ownerID = .ok b) :
    filterLoop ownerID returnOwned l =
      .ok (l.filter (fun e => decide (isRuleOwnedByID e ownerID = .ok returnOwned))) := by
  induction l with
  | nil => rfl
  | cons e rest ih =>
    obtain ⟨b, hb⟩ := h e (by simp)
    have ih2 := ih (fun x hx => h x (by simp [hx]))
    simp only [filterLoop, hb, ih2]
    cases b <;> cases returnOwned <;> simp [List.filter, hb]

theorem filterLoop_inv (ownerID : String) (returnOwned : Bool) (l res : List IpPermission)
    (h : filterLoop ownerID returnOwned l = .ok res) :
    ∀ e ∈ l, ∃ b, isRuleOwnedByID e ownerID = .ok b := by
  induction l generalizing res with
  | nil => simp
  | cons e rest ih =>
    simp only [filterLoop] at h
    cases hb : isRuleOwnedByID e ownerID with
    | error p => simp [hb] at h
    | ok b =>
      simp only [hb] at h
      cases hr : filterLoop ownerID returnOwned rest with
      | error p => simp [hr] at h
      | ok res2 =>
        intro x hx
        rcases List.mem_cons.mp hx with rfl | hx
        · exact ⟨b, hb⟩
        · exact ih res2 hr x hx

theorem isRuleOwnedByID_described (e : IpPermission) (ownerID : String)
    (h : ∃ cidr d rest, e.IpRanges = ⟨cidr, some d⟩ :: rest) :
    ∃ b, isRuleOwnedByID e ownerID = .ok b := by
  obtain ⟨cidr, d, rest, h⟩ := h
  simp only [isRuleOwnedByID, h]
  obtain ⟨r, hr⟩ : ∃ r, ParseDescription (some d) = .ok r := by
    simp only [ParseDescription]
    split <;> exact ⟨_, rfl⟩
  rw [hr]
  cases r with
  | none => exact ⟨false, rfl⟩
  | some p => exact ⟨_, rfl⟩

/-- On entries that all carry a description, `filterInboundRules` splits the
expanded list, in order, into the entries owned by `ownerID` and the others. -/
theorem filterInboundRules_described (rules : List IpPermission) (ownerID : String)
    (returnOwned : Bool)
    (h : ∀ rule ∈ rules, ∀ r ∈ rule.IpRanges, r.Description ≠ none) :
    filterInboundRules rules ownerID returnOwned =
      .ok ((expandRules rules).filter
        (fun e => decide (isRuleOwnedByID e ownerID = .ok returnOwned))) := by
  apply filterLoop_ok
  intro e he
  obtain ⟨rule, h1, r, h2, rfl⟩ := mem_expandRules rules e he
  apply isRuleOwnedByID_described
  have := h rule h1 r h2
  cases r with
  | mk cidr desc =>
    cases desc with
    | none => exact absurd rfl this
    | some d => exact ⟨cidr, d, [], rfl⟩

/-- C4 (the code at the failing input): a grouped rule whose only address
range carries no description makes `filterInboundRules` panic with a nil
dereference, for either value of `returnOwned`, instead of classifying the
range as not owned. -/
theorem C4_undescribed_range_panics :
    filterInboundRules
      [{ FromPort := some 22, ToPort := some 22, IpProtocol := some "tcp",
         IpRanges := [{ CidrIp := some "10.0.0.1/32", Description := none }] }]
      "team-a" false = .error .nilDereference ∧
    filterInboundRules
      [{ FromPort := some 22, ToPort := some 22, IpProtocol := some "tcp",
         IpRanges := [{ CidrIp := some "10.0.0.1/32", Description := none }] }]
      "team-a" true = .error .nilDereference := by
  decide

/-- C5: `expandRules` returns, in input order, one rule per address range of
each grouped rule, with that rule's FromPort, ToPort and IpProtocol and exactly
that one address range (CidrIp and Description); so the length of the result is
the sum of the numbers of address ranges of the grouped rules. -/
theorem C5_expandRules (rules : List IpPermission) :
    expandRules rules =
      rules.flatMap (fun rule => rule.IpRanges.map (fun iprange =>
        { FromPort := rule.FromPort, ToPort := rule.ToPort, IpProtocol := rule.IpProtocol,
          IpRanges := [iprange] })) ∧
    (expandRules rules).length = (rules.map (fun rule => rule.IpRanges.length)).sum := by
  induction rules with
  | nil => exact ⟨rfl, rfl⟩
  | cons rule rest ih =>
    obtain ⟨ih1, ih2⟩ := ih
    constructor
    · simp only [expandRules, List.flatMap_cons, expandRule_eq_map, ih1]
    · simp only [expandRules, List.length_append, expandRule_eq_map, List.length_map,
        List.map_cons, List.sum_cons, ih2]

/-- C6 (the code at the failing input): on a list of two atomic entries, the
second without a description, `filterInboundRules` panics for either value of
`returnOwned`, so neither result is returned. -/
theorem C6_partition_panics_on_undescribed :
    filterInboundRules
      [{ FromPort := some 22, ToPort := some 22, IpProtocol := some "tcp",
         IpRanges := [{ CidrIp := some "10.0.0.1/32",
                        Description := some "ownerid=team-a ; nodename=n1" }] },
       { FromPort := some 22, ToPort := some 22, IpProtocol := some "tcp",
         IpRanges := [{ CidrIp := some "10.0.0.2/32", Description := none }] }]
      "team-a" true = .error .nilDereference ∧
    filterInboundRules
      [{ FromPort := some 22, ToPort := some 22, IpProtocol := some "tcp",
         IpRanges := [{ CidrIp := some "10.0.0.1/32",
                        Description := some "ownerid=team-a ; nodename=n1" }] },
       { FromPort := some 22, ToPort := some 22, IpProtocol := some "tcp",
         IpRanges := [{ CidrIp := some "10.0.0.2/32", Description := none }] }]
      "team-a" false = .error .nilDereference := by
  decide

/-! ## The reconciler -/

theorem filterInboundRules_expandRules (rules : List IpPermission) (ownerID : String)
    (returnOwned : Bool) :
    filterInboundRules (expandRules rules) ownerID returnOwned =
      filterInboundRules rules ownerID returnOwned := by
  simp only [filterInboundRules, expandRules_idem]

theorem ReplaceOwnedEntries_describe_error (a : AwsContext) (entries : List RuleEntry)
    (e : String) (hd : a.ec2.describeErr = some e) :
    a.ReplaceOwnedEntries entries =
      .ok (some ("ReplaceOwnedEntries error while getting old rules: " ++
                 ("GetInboundRules error: " ++ e)),
           { a with ec2 := { a.ec2 with calls := a.ec2.calls ++ [Call.DescribeSecurityGroups] } }) := by
  simp only [AwsContext.ReplaceOwnedEntries, AwsContext.GetInboundRules,
    EC2.DescribeSecurityGroups, hd]

theorem ReplaceOwnedEntries_eq (a : AwsContext) (entries : List RuleEntry)
    (hd : a.ec2.describeErr = none) :
    a.ReplaceOwnedEntries entries =
      match filterInboundRules a.ec2.IpPermissions a.OwnerID false with
      | .error p => .error p
      | .ok notMyRules =>
        .ok (AwsContext.SetInboundRules
          (AwsContext.DeleteInboundRules
            { a with ec2 := { a.ec2 with calls := a.ec2.calls ++ [Call.DescribeSecurityGroups] } }
            a.ec2.IpPermissions).2
          (notMyRules ++ entries.map replacement)) := by
  simp only [AwsContext.ReplaceOwnedEntries, AwsContext.GetInboundRules,
    EC2.DescribeSecurityGroups, hd, filterInboundRules_expandRules]

theorem SetInboundRules_calls (a : AwsContext) (rules : List IpPermission) :
    (a.SetInboundRules rules).2.ec2.calls =
      a.ec2.calls ++ [Call.AuthorizeSecurityGroupIngress rules] := by
  simp only [AwsContext.SetInboundRules, EC2.AuthorizeSecurityGroupIngress]
  split <;> rename_i heq <;> revert heq <;> split <;> (try split) <;> intro heq <;>
    simp only [Prod.mk.injEq] at heq <;> obtain ⟨-, rfl⟩ := heq <;> rfl

theorem SetInboundRules_ok (a a2 : AwsContext) (rules : List IpPermission)
    (h : a.SetInboundRules rules = (none, a2)) :
    a2.ec2.IpPermissions = a.ec2.IpPermissions ++ rules ∧ a2.OwnerID = a.OwnerID := by
  simp only [AwsContext.SetInboundRules, EC2.AuthorizeSecurityGroupIngress] at h
  cases ha : a.ec2.authorizeErr with
  | some e => simp [ha] at h
  | none =>
    simp only [ha] at h
    by_cases hr : rules.isEmpty = true
    · simp [hr] at h
    · simp only [hr] at h
      simp only [Prod.mk.injEq, true_and, Bool.false_eq_true, if_false] at h
      subst h
      exact ⟨rfl, rfl⟩

theorem revoke_all (l : List IpPermission) :
    (expandRules l).filter (fun e => !(expandRules l).contains e) = [] := by
  rw [List.filter_eq_nil_iff]
  intro e he
  simp [he]

theorem DeleteInboundRules_all (a : AwsContext) (hr : a.ec2.revokeErr = none) :
    (a.DeleteInboundRules a.ec2.IpPermissions).2.ec2.IpPermissions = [] ∧
    (a.DeleteInboundRules a.ec2.IpPermissions).2.OwnerID = a.OwnerID := by
  simp only [AwsContext.DeleteInboundRules, EC2.RevokeSecurityGroupIngress, hr]
  by_cases h0 : a.ec2.IpPermissions.length = 0
  · simp only [h0, if_true]
    exact ⟨List.length_eq_zero.mp h0, trivial⟩
  · simp [h0, revoke_all]

theorem isRuleOwnedByID_replacement (e : RuleEntry) (ownerID : String)
    (ho : e.OwnerID ≠ "") (hn : e.NodeName ≠ "")
    (hos : ∀ c ∈ e.OwnerID.data, isSpace c = false)
    (hns : ∀ c ∈ e.NodeName.data, isSpace c = false) :
    isRuleOwnedByID (replacement e) ownerID = .ok (decide (e.OwnerID = ownerID)) := by
  have h := ParseDescription_GetDescription e (fun h => ho (String.ext h))
    (fun h => hn (String.ext h)) hos hns
  simp only [isRuleOwnedByID, replacement, h]

theorem filterLoop_mem (ownerID : String) (returnOwned : Bool) (l res : List IpPermission)
    (h : filterLoop ownerID returnOwned l = .ok res) :
    res = l.filter (fun e => decide (isRuleOwnedByID e ownerID = .ok returnOwned)) := by
  have h2 := filterLoop_ok ownerID returnOwned l (filterLoop_inv ownerID returnOwned l res h)
  rw [h] at h2
  injection h2

theorem ReplaceOwnedEntries_success (a a2 : AwsContext) (entries : List RuleEntry)
    (hrev : a.ec2.revokeErr = none) (h : a.ReplaceOwnedEntries entries = .ok (none, a2)) :
    ∃ F, filterInboundRules a.ec2.IpPermissions a.OwnerID false = .ok F ∧
      a2.ec2.IpPermissions = F ++ entries.map replacement ∧ a2.OwnerID = a.OwnerID := by
  cases hd : a.ec2.describeErr with
  | some e =>
    rw [ReplaceOwnedEntries_describe_error a entries e hd] at h
    simp at h
  | none =>
    rw [ReplaceOwnedEntries_eq a entries hd] at h
    cases hF : filterInboundRules a.ec2.IpPermissions a.OwnerID false with
    | error p => simp [hF] at h
    | ok F =>
      simp only [hF, Except.ok.injEq] at h
      obtain ⟨h1, h2⟩ := SetInboundRules_ok _ _ _ h
      have hdel := DeleteInboundRules_all
        { a with ec2 := { a.ec2 with calls := a.ec2.calls ++ [Call.DescribeSecurityGroups] } } hrev
      simp only at hdel
      rw [hdel.1] at h1
      rw [hdel.2] at h2
      exact ⟨F, rfl, by simpa using h1, h2⟩

/-- After a successful replacement by entries that decode to this owner, the
firewall splits into the former foreign entries and the desired entries. -/
theorem filterInboundRules_after (ownerID : String) (old : List IpPermission)
    (F : List IpPermission) (entries : List RuleEntry)
    (hF : filterInboundRules old ownerID false = .ok F)
    (hD : ∀ e ∈ entries, e.OwnerID = ownerID ∧ e.OwnerID ≠ "" ∧ e.NodeName ≠ "" ∧
      (∀ c ∈ e.OwnerID.data, isSpace c = false) ∧ (∀ c ∈ e.NodeName.data, isSpace c = false)) :
    filterInboundRules (F ++ entries.map replacement) ownerID false = .ok F ∧
    filterInboundRules (F ++ entries.map replacement) ownerID true =
      .ok (entries.map replacement) := by
  have hFeq := filterLoop_mem ownerID false _ F hF
  have hFmem : ∀ e ∈ F, e ∈ expandRules old ∧ isRuleOwnedByID e ownerID = .ok false := by
    intro e he
    rw [hFeq] at he
    simpa using he
  have hRL : ∀ p ∈ entries.map replacement, isRuleOwnedByID p ownerID = .ok true := by
    intro p hp
    obtain ⟨e, he, rfl⟩ := List.mem_map.mp hp
    obtain ⟨h1, h2, h3, h4, h5⟩ := hD e he
    rw [isRuleOwnedByID_replacement e ownerID h2 h3 h4 h5]
    simp [h1]
  have hat : expandRules (F ++ entries.map replacement) = F ++ entries.map replacement := by
    apply expandRules_atomic
    intro e he
    rcases List.mem_append.mp he with he | he
    · obtain ⟨rule, -, r, -, rfl⟩ := mem_expandRules old e (hFmem e he).1
      exact ⟨r, rfl⟩
    · obtain ⟨x, -, rfl⟩ := List.mem_map.mp he
      exact ⟨_, rfl⟩
  have hall : ∀ e ∈ F ++ entries.map replacement, ∃ b, isRuleOwnedByID e ownerID = .ok b := by
    intro e he
    rcases List.mem_append.mp he with he | he
    · exact ⟨false, (hFmem e he).2⟩
    · exact ⟨true, hRL e he⟩
  have k1 : F.filter (fun e => decide (isRuleOwnedByID e ownerID = .ok false)) = F :=
    List.filter_eq_self.mpr (fun e he => by simp [(hFmem e he).2])
  have k2 : F.filter (fun e => decide (isRuleOwnedByID e ownerID = .ok true)) = [] :=
    List.filter_eq_nil_iff.mpr (fun e he => by simp [(hFmem e he).2])
  have k3 : (entries.map replacement).filter
      (fun e => decide (isRuleOwnedByID e ownerID = .ok false)) = [] :=
    List.filter_eq_nil_iff.mpr (fun e he => by simp [hRL e he])
  have k4 : (entries.map replacement).filter
      (fun e => decide (isRuleOwnedByID e ownerID = .ok true)) = entries.map replacement :=
    List.filter_eq_self.mpr (fun e he => by simp [hRL e he])
  constructor
  · simp only [filterInboundRules, hat]
    rw [filterLoop_ok ownerID false _ hall, List.filter_append, k1, k3, List.append_nil]
  · simp only [filterInboundRules, hat]
    rw [filterLoop_ok ownerID true _ hall, List.filter_append, k2, k4, List.nil_append]

theorem isRuleOwnedByID_true_iff (e : IpPermission) (ownerID : String) :
    isRuleOwnedByID e ownerID = .ok true ↔
      ∃ cidr d rest node, e.IpRanges = ⟨cidr, some d⟩ :: rest ∧
        ParseDescription (some d) = .ok (some (ownerID, node)) := by
  constructor
  · intro h
    simp only [isRuleOwnedByID] at h
    split at h
    · simp at h
    · rename_i r rest hr
      split at h
      · simp at h
      · simp at h
      · rename_i owner node hp
        simp only [Except.ok.injEq, decide_eq_true_eq] at h
        subst h
        cases r with
        | mk cidr desc =>
          cases desc with
          | none => simp [ParseDescription] at hp
          | some d => exact ⟨cidr, d, rest, node, hr, hp⟩
  · rintro ⟨cidr, d, rest, node, h1, h2⟩
    simp [isRuleOwnedByID, h1, h2]

/-- On atomic entries that all carry a description `filterInboundRules` returns, in
input order, the entries whose description decodes to `ownerID` for
`returnOwned = true` and the remaining ones for `returnOwned = false`, and the
two lengths add up to the length of the input. -/
theorem filterInboundRules_partition (rules : List IpPermission) (ownerID : String)
    (h : ∀ e ∈ rules, ∃ cidr d, e.IpRanges = [⟨cidr, some d⟩]) :
    filterInboundRules rules ownerID true =
      .ok (rules.filter (fun e => decide (isRuleOwnedByID e ownerID = .ok true))) ∧
    filterInboundRules rules ownerID false =
      .ok (rules.filter (fun e => !decide (isRuleOwnedByID e ownerID = .ok true))) ∧
    (rules.filter (fun e => decide (isRuleOwnedByID e ownerID = .ok true))).length +
      (rules.filter (fun e => !decide (isRuleOwnedByID e ownerID = .ok true))).length =
      rules.length := by
  have hat : expandRules rules = rules :=
    expandRules_atomic rules (fun e he => by
      obtain ⟨cidr, d, hr⟩ := h e he
      exact ⟨_, hr⟩)
  have hdesc : ∀ rule ∈ rules, ∀ r ∈ rule.IpRanges, r.Description ≠ none := by
    intro rule hrule r hr
    obtain ⟨cidr, d, hd⟩ := h rule hrule
    rw [hd] at hr
    simp only [List.mem_singleton] at hr
    subst hr
    simp
  refine ⟨?_, ?_, ?_⟩
  · rw [filterInboundRules_described rules ownerID true hdesc, hat]
  · rw [filterInboundRules_described rules ownerID false hdesc, hat]
    congr 1
    apply List.filter_congr
    intro e he
    obtain ⟨cidr, d, hd⟩ := h e he
    obtain ⟨b, hb⟩ := isRuleOwnedByID_described e ownerID ⟨cidr, d, [], hd⟩
    cases b <;> simp [hb]
  · exact (List.length_eq_length_filter_add _).symm

/-- C7 (the code at the failing input): the provider serves the describe
request and fails the revoke request; `ReplaceOwnedEntries` drops that error,
still issues the authorize request and returns no error. -/
theorem C7_revoke_error_dropped :
    (AwsContext.ReplaceOwnedEntries
      { ec2 := { IpPermissions := [scenarioRule], describeErr := none,
                 revokeErr := some "RequestLimitExceeded", authorizeErr := none, calls := [] },
        SecurityGroupID := "sg-1", OwnerID := "team-a" }
      [newEntry]).map (fun r => (r.1, r.2.ec2.calls)) =
    .ok (none,
      [Call.DescribeSecurityGroups, Call.RevokeSecurityGroupIngress [scenarioRule],
       Call.AuthorizeSecurityGroupIngress [scenarioForeign, replacement newEntry]]) := by
  decide

/-- C8 (as the claim states it, refuted): on an empty firewall (F and O empty)
the desired list holding `otherEntry`, whose OwnerID field is "team-b", is
installed with success by the instance "team-a"; afterwards the entries not
owned by "team-a" are that entry, not F, and the entries owned by "team-a" are
none, not the entries of D. -/
theorem C8_foreign_preservation_counterexample :
    (AwsContext.ReplaceOwnedEntries
      { ec2 := EC2.serving [], SecurityGroupID := "sg-1", OwnerID := "team-a" }
      [otherEntry]).map Prod.fst = .ok none ∧
    filterInboundRules [] "team-a" false = .ok [] ∧
    (AwsContext.ReplaceOwnedEntries
      { ec2 := EC2.serving [], SecurityGroupID := "sg-1", OwnerID := "team-a" }
      [otherEntry]).bind
        (fun r => filterInboundRules r.2.ec2.IpPermissions "team-a" false) =
      .ok [replacement otherEntry] ∧
    (AwsContext.ReplaceOwnedEntries
      { ec2 := EC2.serving [], SecurityGroupID := "sg-1", OwnerID := "team-a" }
      [otherEntry]).bind
        (fun r => filterInboundRules r.2.ec2.IpPermissions "team-a" true) =
      .ok [] := by
  decide

/-- C8 (amended): foreign preservation. For every firewall state whose
provider serves the revoke request and every desired list D whose entries
carry this instance's OwnerID, with owner and node name non-empty and free of
white space: when `ReplaceOwnedEntries D` returns no error, the firewall's
entries not owned by this instance are exactly the foreign entries F it had
before (same description, address, ports and protocol), its entries owned by
this instance are exactly the entries of D, and no formerly owned entry remains
unless D contains it. -/
theorem C8_foreign_preservation (a a2 : AwsContext) (D : List RuleEntry)
    (hrev : a.ec2.revokeErr = none)
    (hD : ∀ e ∈ D, e.OwnerID = a.OwnerID ∧ e.OwnerID ≠ "" ∧ e.NodeName ≠ "" ∧
      (∀ c ∈ e.OwnerID.data, isSpace c = false) ∧ (∀ c ∈ e.NodeName.data, isSpace c = false))
    (h : a.ReplaceOwnedEntries D = .ok (none, a2)) :
    ∃ F O,
      filterInboundRules a.ec2.IpPermissions a.OwnerID false = .ok F ∧
      filterInboundRules a.ec2.IpPermissions a.OwnerID true = .ok O ∧
      filterInboundRules a2.ec2.IpPermissions a2.OwnerID false = .ok F ∧
      filterInboundRules a2.ec2.IpPermissions a2.OwnerID true = .ok (D.map replacement) ∧
      ∀ e ∈ O, e ∈ expandRules a2.ec2.IpPermissions → e ∈ D.map replacement := by
  obtain ⟨F, hF, hst, hown⟩ := ReplaceOwnedEntries_success a a2 D hrev h
  obtain ⟨k1, k2⟩ := filterInboundRules_after a.OwnerID a.ec2.IpPermissions F D hF hD
  have hall := filterLoop_inv a.OwnerID false _ F hF
  have hO := filterLoop_ok a.OwnerID true _ hall
  refine ⟨F, _, hF, hO, ?_, ?_, ?_⟩
  · rw [hst, hown]
    exact k1
  · rw [hst, hown]
    exact k2
  · intro e he hmem
    have he2 : isRuleOwnedByID e a.OwnerID = .ok true := by simpa using (List.mem_filter.mp he).2
    have k3 := filterLoop_mem a.OwnerID true _ _ k2
    rw [hst] at hmem
    have hexp : expandRules (F ++ D.map replacement) = F ++ D.map replacement := by
      apply expandRules_atomic
      intro x hx
      have hFeq := filterLoop_mem a.OwnerID false _ F hF
      rcases List.mem_append.mp hx with hx | hx
      · rw [hFeq] at hx
        obtain ⟨rule, -, r, -, rfl⟩ := mem_expandRules _ x (List.mem_filter.mp hx).1
        exact ⟨r, rfl⟩
      · obtain ⟨y, -, rfl⟩ := List.mem_map.mp hx
        exact ⟨_, rfl⟩
    rw [k3, hexp]
    rw [hexp] at hmem
    exact List.mem_filter.mpr ⟨hmem, by simp [he2]⟩

theorem C8_foreign_preservation_witness :
    scenarioContext.ReplaceOwnedEntries [newEntry] = .ok (none, scenarioAfter) ∧
    ∃ F O,
      filterInboundRules scenarioContext.ec2.IpPermissions scenarioContext.OwnerID false =
        .ok F ∧
      filterInboundRules scenarioContext.ec2.IpPermissions scenarioContext.OwnerID true =
        .ok O ∧
      filterInboundRules scenarioAfter.ec2.IpPermissions scenarioAfter.OwnerID false = .ok F ∧
      filterInboundRules scenarioAfter.ec2.IpPermissions scenarioAfter.OwnerID true =
        .ok ([newEntry].map replacement) ∧
      ∀ e ∈ O, e ∈ expandRules scenarioAfter.ec2.IpPermissions →
        e ∈ [newEntry].map replacement :=
  ⟨by decide,
   C8_foreign_preservation scenarioContext scenarioAfter [newEntry] rfl (by decide) (by decide)⟩

/-- C9 (as the claim states it, refuted): the instance "team-a" is given the
desired entry `otherEntry`, whose OwnerID field is "team-b"; the permission
submitted to authorize carries the description encoded from "team-b", not the
one encoded from the context's OwnerID "team-a". -/
theorem C9_annotation_counterexample :
    (AwsContext.ReplaceOwnedEntries
      { ec2 := EC2.serving [], SecurityGroupID := "sg-1", OwnerID := "team-a" }
      [otherEntry]).map (fun r => r.2.ec2.calls) =
    .ok [Call.DescribeSecurityGroups,
         Call.AuthorizeSecurityGroupIngress
          [{ FromPort := some 5432, ToPort := some 5432, IpProtocol := some "tcp",
             IpRanges := [{ CidrIp := some "10.0.0.3/32",
                            Description := some "ownerid=team-b ; nodename=n3" }] }]] ∧
    "ownerid=team-b ; nodename=n3" ≠
      RuleEntry.GetDescription { otherEntry with OwnerID := "team-a" } := by
  decide

/-- C9 (amended): whenever the describe request is served and
`ReplaceOwnedEntries` returns, its last request to the provider is the
authorize request for the former foreign entries followed by one permission
per desired entry, in order; that permission carries the entry's ports,
protocol and address and the description encoded from the entry's own OwnerID
field and its node name (this instance's identity exactly when the entry's
OwnerID field holds it). -/
theorem C9_annotation_of_desired_entries (a a2 : AwsContext) (D : List RuleEntry)
    (err : Option String) (hd : a.ec2.describeErr = none)
    (h : a.ReplaceOwnedEntries D = .ok (err, a2)) :
    ∃ F, filterInboundRules a.ec2.IpPermissions a.OwnerID false = .ok F ∧
      a2.ec2.calls.getLast? =
        some (Call.AuthorizeSecurityGroupIngress (F ++ D.map replacement)) ∧
      ∀ e ∈ D, replacement e =
        { FromPort := some e.FromPort, ToPort := some e.ToPort, IpProtocol := some e.Protocol,
          IpRanges := [{ CidrIp := some e.IP,
                         Description :=
                           some ("ownerid=" ++ e.OwnerID ++ " ; nodename=" ++ e.NodeName) }] } := by
  rw [ReplaceOwnedEntries_eq a D hd] at h
  cases hF : filterInboundRules a.ec2.IpPermissions a.OwnerID false with
  | error p => simp [hF] at h
  | ok F =>
    simp only [hF, Except.ok.injEq] at h
    refine ⟨F, rfl, ?_, fun e _ => rfl⟩
    have hc := SetInboundRules_calls
      (AwsContext.DeleteInboundRules
        { a with ec2 := { a.ec2 with calls := a.ec2.calls ++ [Call.DescribeSecurityGroups] } }
        a.ec2.IpPermissions).2 (F ++ D.map replacement)
    rw [h] at hc
    simp only at hc
    rw [hc, List.getLast?_concat]

theorem C9_annotation_of_desired_entries_witness :
    scenarioContext.ReplaceOwnedEntries [newEntry] = .ok (none, scenarioAfter) ∧
    ∃ F, filterInboundRules scenarioContext.ec2.IpPermissions scenarioContext.OwnerID false =
        .ok F ∧
      scenarioAfter.ec2.calls.getLast? =
        some (Call.AuthorizeSecurityGroupIngress (F ++ [newEntry].map replacement)) ∧
      ∀ e ∈ [newEntry], replacement e =
        { FromPort := some e.FromPort, ToPort := some e.ToPort, IpProtocol := some e.Protocol,
          IpRanges := [{ CidrIp := some e.IP,
                         Description :=
                           some ("ownerid=" ++ e.OwnerID ++ " ; nodename=" ++ e.NodeName) }] } :=
  ⟨by decide,
   C9_annotation_of_desired_entries scenarioContext scenarioAfter [newEntry] none rfl
    (by decide)⟩

/-- C10 (the code at the failing inputs): on a firewall with two entries owned
by "team-a" `GetOwnedEntries` returns one entry, the first; after the
replacement of `TestReplaceOwnedEntries` (five entries on an empty firewall,
returning no error) it returns one entry, not five; and on a firewall with no
owned entry it panics with an index out of range instead of returning an
empty list. -/
theorem C10_GetOwnedEntries_reads_first_rule_only :
    (AwsContext.GetOwnedEntries
      { ec2 := EC2.serving
          [{ FromPort := some 5432, ToPort := some 5432, IpProtocol := some "tcp",
             IpRanges :=
               [{ CidrIp := some "10.0.0.1/32",
                  Description := some "ownerid=team-a ; nodename=n1" },
                { CidrIp := some "10.0.0.2/32",
                  Description := some "ownerid=team-a ; nodename=n2" }] }],
        SecurityGroupID := "sg-1", OwnerID := "team-a" }).map Prod.fst =
      .ok (.ok [{ NodeName := "n1", OwnerID := "team-a", FromPort := 5432, ToPort := 5432,
                  IP := "10.0.0.1/32", Protocol := "tcp" }]) ∧
    (AwsContext.ReplaceOwnedEntries
      { ec2 := EC2.serving [], SecurityGroupID := "sg-1", OwnerID := "team-a" }
      (validEntries "team-a")).map Prod.fst = .ok none ∧
    ((AwsContext.ReplaceOwnedEntries
      { ec2 := EC2.serving [], SecurityGroupID := "sg-1", OwnerID := "team-a" }
      (validEntries "team-a")).bind (fun r => r.2.GetOwnedEntries)).map Prod.fst =
      .ok (.ok [{ NodeName := "node1", OwnerID := "team-a", FromPort := 2345, ToPort := 5432,
                  IP := "192.172.0.1/32", Protocol := "tcp" }]) ∧
    (AwsContext.GetOwnedEntries
      { ec2 := EC2.serving [scenarioForeign], SecurityGroupID := "sg-1",
        OwnerID := "team-a" }).map Prod.fst = .error .indexOutOfRange := by
  decide

/-! ## The empty rule set -/

theorem DeleteInboundRules_nil (a : AwsContext) : a.DeleteInboundRules [] = (none, a) := by
  simp [AwsContext.DeleteInboundRules]

theorem SetInboundRules_nil (a : AwsContext) :
    ∃ err a2, a.SetInboundRules [] = (some err, a2) ∧
      a2.ec2.IpPermissions = a.ec2.IpPermissions := by
  simp only [AwsContext.SetInboundRules, EC2.AuthorizeSecurityGroupIngress]
  cases ha : a.ec2.authorizeErr with
  | some e => exact ⟨_, _, rfl, rfl⟩
  | none => exact ⟨_, _, rfl, rfl⟩

theorem filterInboundRules_nil (ownerID : String) (returnOwned : Bool) :
    filterInboundRules [] ownerID returnOwned = .ok [] := rfl

theorem ReplaceOwnedEntries_empty_rule_set (a : AwsContext) (entries : List RuleEntry)
    (hd : a.ec2.describeErr = none) (he : a.ec2.IpPermissions = []) :
    a.ReplaceOwnedEntries entries =
      .ok (AwsContext.SetInboundRules
        { a with ec2 := { a.ec2 with calls := a.ec2.calls ++ [Call.DescribeSecurityGroups] } }
        (entries.map replacement)) := by
  rw [ReplaceOwnedEntries_eq a entries hd, he, filterInboundRules_nil, DeleteInboundRules_nil]
  simp

/-- C11: when the current rule set is empty, `DeleteInboundRules` of the empty
list returns no error and the unchanged context (no request reaches the
provider), and among the requests `ReplaceOwnedEntries` issues there is no
revoke request; in particular, when the describe request is served,
`ReplaceOwnedEntries` of an empty desired list on an empty firewall issues,
after that describe request, only an authorize request with an empty
permission list, returns the error with which the provider rejects it, and
leaves the firewall's rule set unchanged. -/
theorem C11_empty_rule_set (a : AwsContext) (D : List RuleEntry)
    (he : a.ec2.IpPermissions = []) :
    a.DeleteInboundRules [] = (none, a) ∧
    (∃ err a2 issued, a.ReplaceOwnedEntries D = .ok (err, a2) ∧
      a2.ec2.calls = a.ec2.calls ++ issued ∧
      ∀ perms, Call.RevokeSecurityGroupIngress perms ∉ issued) ∧
    (a.ec2.describeErr = none →
      ∃ err a2, a.ReplaceOwnedEntries [] = .ok (some err, a2) ∧
        a2.ec2.calls = a.ec2.calls ++
          [Call.DescribeSecurityGroups, Call.AuthorizeSecurityGroupIngress []] ∧
        a2.ec2.IpPermissions = a.ec2.IpPermissions) := by
  refine ⟨DeleteInboundRules_nil a, ?_, ?_⟩
  · cases hd : a.ec2.describeErr with
    | some e =>
      rw [ReplaceOwnedEntries_describe_error a D e hd]
      exact ⟨_, _, [Call.DescribeSecurityGroups], rfl, rfl, by simp⟩
    | none =>
      rw [ReplaceOwnedEntries_empty_rule_set a D hd he]
      have hc := SetInboundRules_calls
        { a with ec2 := { a.ec2 with calls := a.ec2.calls ++ [Call.DescribeSecurityGroups] } }
        (D.map replacement)
      generalize AwsContext.SetInboundRules
        { a with ec2 := { a.ec2 with calls := a.ec2.calls ++ [Call.DescribeSecurityGroups] } }
        (D.map replacement) = res at hc ⊢
      refine ⟨res.1, res.2, [Call.DescribeSecurityGroups,
        Call.AuthorizeSecurityGroupIngress (D.map replacement)], rfl, ?_, by simp⟩
      rw [hc]
      simp
  · intro hd
    rw [ReplaceOwnedEntries_empty_rule_set a [] hd he]
    obtain ⟨err, a2, h1, h2⟩ := SetInboundRules_nil
      { a with ec2 := { a.ec2 with calls := a.ec2.calls ++ [Call.DescribeSecurityGroups] } }
    have hc := SetInboundRules_calls
      { a with ec2 := { a.ec2 with calls := a.ec2.calls ++ [Call.DescribeSecurityGroups] } } []
    simp only [List.map_nil]
    rw [h1] at hc ⊢
    refine ⟨err, a2, rfl, ?_, h2⟩
    simpa using hc

theorem C11_empty_rule_set_witness :
    AwsContext.DeleteInboundRules
        { ec2 := EC2.serving [], SecurityGroupID := "sg-1", OwnerID := "team-a" } [] =
      (none, { ec2 := EC2.serving [], SecurityGroupID := "sg-1", OwnerID := "team-a" }) ∧
    (∃ err a2 issued,
      AwsContext.ReplaceOwnedEntries
        { ec2 := EC2.serving [], SecurityGroupID := "sg-1", OwnerID := "team-a" }
        [newEntry] = .ok (err, a2) ∧
      a2.ec2.calls = (EC2.serving []).calls ++ issued ∧
      ∀ perms, Call.RevokeSecurityGroupIngress perms ∉ issued) ∧
    ((EC2.serving []).describeErr = none →
      ∃ err a2,
        AwsContext.ReplaceOwnedEntries
          { ec2 := EC2.serving [], SecurityGroupID := "sg-1", OwnerID := "team-a" } [] =
          .ok (some err, a2) ∧
        a2.ec2.calls = (EC2.serving []).calls ++
          [Call.DescribeSecurityGroups, Call.AuthorizeSecurityGroupIngress []] ∧
        a2.ec2.IpPermissions = (EC2.serving []).IpPermissions) :=
  C11_empty_rule_set
    { ec2 := EC2.serving [], SecurityGroupID := "sg-1", OwnerID := "team-a" } [newEntry] rfl

end AwsClient
